import Mathlib

/-!
Verification development for the flowchart-generation pipeline of
`src/app/api/generate/route.ts` (AI flowchart builder).

The pipeline is embedded shallowly:
* JSON values decoded by `JSON.parse` are modelled by `JsonVal`
  (numbers as exact rationals; IEEE rounding of extreme values is not modelled);
* `extractJSON`, `validateFlowchart`, `generateLocalFlowchart` and the
  `POST` handler are translated function by function from the source;
* network calls are abstracted: a provider adapter is a function of its
  credential and of the textual completion the network would return.
-/

set_option maxHeartbeats 1000000

namespace FlowBuilder

/-- Left curly brace, written via its code point. -/
def lbrace : Char := Char.ofNat 123

/-- Right curly brace, written via its code point. -/
def rbrace : Char := Char.ofNat 125

/-- Backtick character, written via its code point. -/
def btick : Char := Char.ofNat 96

/-- Whitespace accepted by `JSON.parse` (space, tab, line feed, carriage return). -/
def isJsonWs (c : Char) : Bool := c = ' ' || c = '\t' || c = '\n' || c = '\r'

/-- JavaScript whitespace, as used by `String.prototype.trim` and by `\s` in the
fence regular expression (the common members; rare Unicode space variants are
included for the NBSP and BOM cases). -/
def isJsWs (c : Char) : Bool :=
  c = ' ' || c = '\t' || c = '\n' || c = '\r' || c = '\x0b' || c = '\x0c' ||
  c = Char.ofNat 160 || c = Char.ofNat 0xfeff

/-- Drop leading JSON whitespace. -/
def skipWs (s : List Char) : List Char := s.dropWhile isJsonWs

/-- Trim JavaScript whitespace from both ends of a character list. -/
def trimList (s : List Char) : List Char :=
  ((s.dropWhile isJsWs).reverse.dropWhile isJsWs).reverse

/-- Model of JavaScript `String.prototype.trim`. -/
def jsTrim (s : String) : String := String.mk (trimList s.data)

/-- Values produced by `JSON.parse`.  Numbers are exact rationals. -/
inductive JsonVal where
  | jnull : JsonVal
  | jbool : Bool → JsonVal
  | jnum : ℚ → JsonVal
  | jstr : String → JsonVal
  | jarr : List JsonVal → JsonVal
  | jobj : List (String × JsonVal) → JsonVal

/-- Property lookup on a decoded object: the last binding of a key wins,
as with duplicate keys in `JSON.parse`. -/
def lookupLast (fs : List (String × JsonVal)) (k : String) : Option JsonVal :=
  match fs with
  | [] => none
  | (k', v) :: rest =>
    match lookupLast rest k with
    | some r => some r
    | none => if k' = k then some v else none

/-- JavaScript property access `v[k]`: `none` models `undefined`. -/
def jget (v : JsonVal) (k : String) : Option JsonVal :=
  match v with
  | .jobj fs => lookupLast fs k
  | _ => none

/-- Optional-chaining property access `v?.k` on an optional value. -/
def jgetO (v : Option JsonVal) (k : String) : Option JsonVal :=
  v.bind (fun w => jget w k)

/-- JavaScript truthiness of a decoded value.  A number is truthy when it is
nonzero (float underflow of extreme exponents is not modelled). -/
def truthyV (v : JsonVal) : Bool :=
  match v with
  | .jnull => false
  | .jbool b => b
  | .jnum q => q ≠ 0
  | .jstr s => s ≠ ""
  | .jarr _ => true
  | .jobj _ => true

/-- JavaScript truthiness of a possibly-`undefined` value. -/
def truthyO (v : Option JsonVal) : Bool :=
  match v with
  | none => false
  | some w => truthyV w

/-- Decimal form of a rational for `String(...)` coercion.  Integers print as
in JavaScript; a non-integer prints as `num/den`, a deliberate simplification
of float formatting that no theorem instantiates. -/
def ratToString (q : ℚ) : String :=
  if q.den = 1 then toString q.num else toString q.num ++ "/" ++ toString q.den

mutual

/-- JavaScript `String(v)` coercion of a decoded value. -/
def jsToString : JsonVal → String
  | .jnull => "null"
  | .jbool true => "true"
  | .jbool false => "false"
  | .jnum q => ratToString q
  | .jstr s => s
  | .jobj _ => "[object Object]"
  | .jarr xs => arrJoin xs

/-- Array-to-string coercion: elements joined by commas, `null` printing as
the empty string. -/
def arrJoin : List JsonVal → String
  | [] => ""
  | x :: xs =>
    (match x with
     | .jnull => ""
     | v => jsToString v) ++ (if xs.isEmpty then "" else ",") ++ arrJoin xs

end

/-- String coercion of a possibly-`undefined` value, as in a template literal. -/
def jsToStringO (v : Option JsonVal) : String :=
  match v with
  | none => "undefined"
  | some w => jsToString w

/-- Numeric value of a decimal digit. -/
def digitVal (c : Char) : Nat := c.toNat - 48

/-- Value of a list of decimal digits. -/
def digitsToNat (ds : List Char) : Nat := ds.foldl (fun a c => a * 10 + digitVal c) 0

/-- Hexadecimal digit value, when the character is one. -/
def hexVal (c : Char) : Option Nat :=
  if c.isDigit then some (c.toNat - 48)
  else if 'a' ≤ c ∧ c ≤ 'f' then some (c.toNat - 87)
  else if 'A' ≤ c ∧ c ≤ 'F' then some (c.toNat - 55)
  else none

/-- Parse the remainder of a JSON string literal (after the opening quote),
accumulating characters; handles the JSON escape sequences and rejects raw
control characters, as `JSON.parse` does. -/
def parseStrAux (acc : List Char) : List Char → Option (String × List Char)
  | [] => none
  | '"' :: r => some (String.mk acc.reverse, r)
  | '\\' :: r =>
    match r with
    | '"' :: r2 => parseStrAux ('"' :: acc) r2
    | '\\' :: r2 => parseStrAux ('\\' :: acc) r2
    | '/' :: r2 => parseStrAux ('/' :: acc) r2
    | 'b' :: r2 => parseStrAux ('\x08' :: acc) r2
    | 'f' :: r2 => parseStrAux ('\x0c' :: acc) r2
    | 'n' :: r2 => parseStrAux ('\n' :: acc) r2
    | 'r' :: r2 => parseStrAux ('\r' :: acc) r2
    | 't' :: r2 => parseStrAux ('\t' :: acc) r2
    | 'u' :: a :: b :: c :: d :: r2 =>
      match hexVal a, hexVal b, hexVal c, hexVal d with
      | some ha, some hb, some hc, some hd =>
        parseStrAux (Char.ofNat (((ha * 16 + hb) * 16 + hc) * 16 + hd) :: acc) r2
      | _, _, _, _ => none
    | _ => none
  | c :: r => if c.toNat < 32 then none else parseStrAux (c :: acc) r

/-- Parse a JSON number as an exact rational.  A malformed fraction or exponent
part is left unconsumed so that overall parsing fails afterwards, matching the
rejection behaviour of `JSON.parse`. -/
def parseNumber (s : List Char) : Option (ℚ × List Char) :=
  let (neg, s1) := match s with
    | '-' :: r => (true, r)
    | _ => (false, s)
  let ds := s1.takeWhile Char.isDigit
  let s2 := s1.dropWhile Char.isDigit
  if ds.isEmpty then none
  else
    let (fq, s3) :=
      match s2 with
      | '.' :: r =>
        let fs := r.takeWhile Char.isDigit
        if fs.isEmpty then ((0 : ℚ), s2)
        else (((digitsToNat fs : ℚ) / ((10 : ℚ) ^ fs.length)), r.dropWhile Char.isDigit)
      | _ => ((0 : ℚ), s2)
    let m : ℚ := (digitsToNat ds : ℚ) + fq
    let (ev, s4) :=
      match s3 with
      | c :: r =>
        if c = 'e' ∨ c = 'E' then
          let (esign, r1) := match r with
            | '+' :: r2 => ((1 : Int), r2)
            | '-' :: r2 => ((-1 : Int), r2)
            | _ => ((1 : Int), r)
          let es := r1.takeWhile Char.isDigit
          if es.isEmpty then ((0 : Int), s3)
          else ((esign * (digitsToNat es : Int)), r1.dropWhile Char.isDigit)
        else ((0 : Int), s3)
      | [] => ((0 : Int), s3)
    some ((if neg then -m else m) * (10 : ℚ) ^ ev, s4)

mutual

/-- Fuel-bounded recursive-descent JSON value parser. -/
def parseValue : Nat → List Char → Option (JsonVal × List Char)
  | 0, _ => none
  | Nat.succ f, s =>
    match s with
    | 'n' :: 'u' :: 'l' :: 'l' :: r => some (.jnull, r)
    | 't' :: 'r' :: 'u' :: 'e' :: r => some (.jbool true, r)
    | 'f' :: 'a' :: 'l' :: 's' :: 'e' :: r => some (.jbool false, r)
    | '"' :: r => (parseStrAux [] r).map (fun p => (.jstr p.1, p.2))
    | '[' :: r =>
      (match skipWs r with
       | ']' :: r2 => some (.jarr [], r2)
       | _ => parseArrayRest f r [])
    | c :: r =>
      if c = lbrace then
        (match skipWs r with
         | d :: r2 => if d = rbrace then some (.jobj [], r2) else parseObjRest f (d :: r2) []
         | [] => none)
      else if c = '-' ∨ c.isDigit then (parseNumber (c :: r)).map (fun p => (.jnum p.1, p.2))
      else none
    | [] => none

/-- Parse the elements of a non-empty JSON array. -/
def parseArrayRest : Nat → List Char → List JsonVal → Option (JsonVal × List Char)
  | 0, _, _ => none
  | Nat.succ f, s, acc =>
    match parseValue f (skipWs s) with
    | none => none
    | some (v, r) =>
      match skipWs r with
      | ',' :: r2 => parseArrayRest f r2 (v :: acc)
      | ']' :: r2 => some (.jarr (v :: acc).reverse, r2)
      | _ => none

/-- Parse the members of a non-empty JSON object. -/
def parseObjRest : Nat → List Char → List (String × JsonVal) → Option (JsonVal × List Char)
  | 0, _, _ => none
  | Nat.succ f, s, acc =>
    match skipWs s with
    | '"' :: r =>
      (match parseStrAux [] r with
       | none => none
       | some (k, r2) =>
         match skipWs r2 with
         | ':' :: r3 =>
           (match parseValue f (skipWs r3) with
            | none => none
            | some (v, r4) =>
              match skipWs r4 with
              | ',' :: r5 => parseObjRest f r5 ((k, v) :: acc)
              | c :: r5 => if c = rbrace then some (.jobj ((k, v) :: acc).reverse, r5) else none
              | [] => none)
         | _ => none)
    | _ => none

end

/-- Model of `JSON.parse`: skip surrounding whitespace, parse one value,
require the input to be exhausted. -/
def jsonParse (s : String) : Option JsonVal :=
  match parseValue (s.length * 2 + 9) (skipWs s.data) with
  | some (v, r) => if (skipWs r).isEmpty then some v else none
  | none => none

/-- Substring occurrence test on character lists (`String.prototype.includes`). -/
def hasSub (needle : List Char) : List Char → Bool
  | [] => needle.isPrefixOf []
  | c :: cs => needle.isPrefixOf (c :: cs) || hasSub needle cs

/-- The three-backtick fence marker. -/
def tripleBq : List Char := [btick, btick, btick]

/-- Test whether a character list begins with the three-backtick marker. -/
def isBB3 (s : List Char) : Bool := tripleBq.isPrefixOf s

/-- Lazy capture group of the fence regular expression: the characters up to
the first closing three-backtick marker, if one occurs. -/
def capTo3 : List Char → Option (List Char)
  | [] => none
  | c :: cs => if isBB3 (c :: cs) then some [] else (capTo3 cs).map (fun l => c :: l)

/-- Greedy optional `\n` of the fence regular expression, with backtracking,
followed by the lazy capture. -/
def matchNl : List Char → Option (List Char)
  | '\n' :: cs => (capTo3 cs).orElse (fun _ => capTo3 ('\n' :: cs))
  | s => capTo3 s

/-- Greedy `\s*` of the fence regular expression, with backtracking. -/
def matchWs : List Char → Option (List Char)
  | [] => matchNl []
  | c :: cs => if isJsWs c then (matchWs cs).orElse (fun _ => matchNl (c :: cs)) else matchNl (c :: cs)

/-- Greedy optional `json` tag of the fence regular expression, with backtracking. -/
def matchAfter3 (s : List Char) : Option (List Char) :=
  match s with
  | 'j' :: 's' :: 'o' :: 'n' :: cs => (matchWs cs).orElse (fun _ => matchWs ('j' :: 's' :: 'o' :: 'n' :: cs))
  | _ => matchWs s

/-- Leftmost match of the fence regular expression
(three backticks, optional `json` tag, whitespace, lazy capture, three
backticks), returning the capture group. -/
def fenceSearch : List Char → Option (List Char)
  | [] => none
  | c :: cs =>
    if isBB3 (c :: cs) then (matchAfter3 (cs.drop 2)).orElse (fun _ => fenceSearch cs)
    else fenceSearch cs

/-- The needle `"nodes"` (with its quotes), looked for inside brace candidates. -/
def nodesNeedle : List Char := '"' :: 'n' :: 'o' :: 'd' :: 'e' :: 's' :: '"' :: []

/-- Remainder of the list after the first character satisfying the test. -/
def afterFirst (p : Char → Bool) : List Char → Option (List Char)
  | [] => none
  | c :: cs => if p c then some cs else afterFirst p cs

/-- Remainder of the list after the first occurrence of the needle. -/
def afterSub (needle : List Char) : List Char → Option (List Char)
  | [] => if needle.isEmpty then some [] else none
  | c :: cs =>
    if needle.isPrefixOf (c :: cs) then some ((c :: cs).drop needle.length)
    else afterSub needle cs

/-- Guard of extraction strategy 3: the input matches
an opening brace, then the quoted word nodes, then a closing brace. -/
def braceGuard (raw : List Char) : Bool :=
  match afterFirst (fun c => c = lbrace) raw with
  | none => false
  | some t1 =>
    match afterSub nodesNeedle t1 with
    | none => false
    | some t2 => t2.any (fun c => c = rbrace)

/-- Truthiness test applied by every extraction strategy to a parsed value:
both the nodes field and the edges field must be truthy. -/
def hasNodesEdges (v : JsonVal) : Bool :=
  truthyO (jget v "nodes") && truthyO (jget v "edges")

/-- Balanced-brace scan of extraction strategy 3: walk the raw text tracking
brace depth, and parse every balanced outermost region that contains the
quoted word nodes, returning the first parse with truthy nodes and edges.
The fuel is an upper bound on the remaining iterations. -/
def braceGo (raw : List Char) (fuel i : Nat) (depth : Int) (start : Option Nat) :
    Option JsonVal :=
  match fuel with
  | 0 => none
  | Nat.succ f =>
    if i < raw.length then
      let c := raw.getD i ' '
      if c = lbrace then
        braceGo raw f (i + 1) (depth + 1) (if depth = 0 then some i else start)
      else if c = rbrace then
        let depth2 := depth - 1
        match start with
        | some st =>
          if depth2 = 0 then
            let candidate := (raw.drop st).take (i + 1 - st)
            if hasSub nodesNeedle candidate then
              match jsonParse (String.mk candidate) with
              | some v => if hasNodesEdges v then some v else braceGo raw f (i + 1) depth2 start
              | none => braceGo raw f (i + 1) depth2 start
            else braceGo raw f (i + 1) depth2 start
          else braceGo raw f (i + 1) depth2 start
        | none => braceGo raw f (i + 1) depth2 start
      else braceGo raw f (i + 1) depth start
    else none

/-- Extraction strategy 3 in full: the fuel covers one step per character. -/
def braceScan (raw : List Char) : Option JsonVal := braceGo raw (raw.length + 1) 0 0 none

/-- Model of `extractJSON`: try the whole trimmed text, then the interior of a
fenced block, then balanced-brace regions containing the quoted word nodes. -/
def extractJSON (raw : String) : Option JsonVal :=
  if raw = "" then none
  else
    let s1 :=
      match jsonParse (jsTrim raw) with
      | some v => if hasNodesEdges v then some v else none
      | none => none
    match s1 with
    | some v => some v
    | none =>
      let s2 :=
        match fenceSearch raw.data with
        | some cap =>
          (match jsonParse (jsTrim (String.mk cap)) with
           | some v => if hasNodesEdges v then some v else none
           | none => none)
        | none => none
      match s2 with
      | some v => some v
      | none => if braceGuard raw.data then braceScan raw.data else none

/-- Node kinds of the graph schema. -/
inductive NodeType where
  | process : NodeType
  | decision : NodeType
  | startEnd : NodeType
  | inputOutput : NodeType
deriving DecidableEq, Repr

/-- Sanitized flowchart node (the nested `data.label` of the source is the
`label` field here). -/
structure FlowchartNode where
  id : String
  type : NodeType
  position : ℚ × ℚ
  label : String
deriving DecidableEq, Repr

/-- Sanitized flowchart edge.  The sanitizer always sets `animated` to true. -/
structure FlowchartEdge where
  id : String
  source : String
  target : String
  label : Option String
  animated : Bool
deriving DecidableEq, Repr

/-- A sanitized graph. -/
structure AIGeneratedFlow where
  nodes : List FlowchartNode
  edges : List FlowchartEdge
deriving DecidableEq, Repr

/-- String name of a node kind. -/
def nodeTypeStr : NodeType → String
  | .process => "process"
  | .decision => "decision"
  | .startEnd => "startEnd"
  | .inputOutput => "inputOutput"

/-- Node filter of the sanitizer: the raw entry, its id and its `data.label`
must all be truthy. -/
def keepNode (n : JsonVal) : Bool :=
  truthyV n && truthyO (jget n "id") && truthyO (jgetO (jget n "data") "label")

/-- Membership test of `VALID_NODE_TYPES.has` followed by the default to
process: only the four recognized string tags map to themselves. -/
def coerceType (o : Option JsonVal) : NodeType :=
  match o with
  | some (.jstr "process") => .process
  | some (.jstr "decision") => .decision
  | some (.jstr "startEnd") => .startEnd
  | some (.jstr "inputOutput") => .inputOutput
  | _ => .process

/-- Position-axis coercion: the value when it is a number, the default otherwise. -/
def coerceAxis (o : Option JsonVal) (dflt : ℚ) : ℚ :=
  match o with
  | some (.jnum q) => q
  | _ => dflt

/-- Node normalization of the sanitizer: coerce the id to a string, recognize
the four node kinds (defaulting to process), default each position axis
independently when it is not a number, and truncate the label to 40 characters. -/
def mkNode (n : JsonVal) : FlowchartNode :=
  { id := jsToString ((jget n "id").getD .jnull)
    type := coerceType (jget n "type")
    position :=
      (coerceAxis (jgetO (jget n "position") "x") 250,
       coerceAxis (jgetO (jget n "position") "y") 0)
    label := String.mk ((jsToString ((jgetO (jget n "data") "label").getD .jnull)).data.take 40) }

/-- Edge filter of the sanitizer: the raw entry, its source and its target must
be truthy, and the string forms of source and target must be ids of kept nodes. -/
def keepEdge (nodeIds : List String) (e : JsonVal) : Bool :=
  truthyV e && truthyO (jget e "source") && truthyO (jget e "target") &&
  nodeIds.contains (jsToString ((jget e "source").getD .jnull)) &&
  nodeIds.contains (jsToString ((jget e "target").getD .jnull))

/-- Edge normalization of the sanitizer: keep or synthesize the id, coerce the
endpoints to strings, carry the label only when truthy, and force animation. -/
def mkEdge (e : JsonVal) : FlowchartEdge :=
  { id :=
      if truthyO (jget e "id") then jsToString ((jget e "id").getD .jnull)
      else "e-" ++ jsToStringO (jget e "source") ++ "-" ++ jsToStringO (jget e "target")
    source := jsToString ((jget e "source").getD .jnull)
    target := jsToString ((jget e "target").getD .jnull)
    label := if truthyO (jget e "label") then some (jsToString ((jget e "label").getD .jnull)) else none
    animated := true }

/-- Model of `validateFlowchart`: reject non-objects and non-array fields,
reject an empty raw node list, sanitize nodes, reject when no node survives,
then sanitize edges against the surviving node ids. -/
def validateFlowchart (data : JsonVal) : Option AIGeneratedFlow :=
  if truthyV data = false then none
  else
    match jget data "nodes", jget data "edges" with
    | some (.jarr ns), some (.jarr es) =>
      if ns.length = 0 then none
      else
        let nodes := (ns.filter keepNode).map mkNode
        if nodes.length = 0 then none
        else
          let nodeIds := nodes.map (fun n => n.id)
          some ⟨nodes, (es.filter (keepEdge nodeIds)).map mkEdge⟩
    | _, _ => none

/-- Split a prompt at arrow-like tokens or commas, as the regular expression
alternation of the local generator does. -/
def splitParts : List Char → List (List Char)
  | [] => [[]]
  | '→' :: r => [] :: splitParts r
  | ',' :: r => [] :: splitParts r
  | '-' :: '>' :: r => [] :: splitParts r
  | c :: r =>
    match splitParts r with
    | s :: rest => (c :: s) :: rest
    | [] => [[c]]

/-- Segments of a prompt: split, trim each piece, keep the non-empty ones. -/
def segments (prompt : String) : List String :=
  (((splitParts prompt.data).map (fun p => trimList p)).map String.mk).filter
    (fun p => p.length > 0)

/-- Remove parentheses and truncate to 25 characters, the label cleanup used
for main-axis nodes of the local generator. -/
def cleanLabel (s : String) : String :=
  String.mk ((s.data.filter (fun c => ¬ (c = '(' ∨ c = ')'))).take 25)

/-- Decision test of the local generator: the segment contains one of the
keywords check, verify, validate, the word if with a trailing space, or a
question mark. -/
def isDecisionStr (part : String) : Bool :=
  hasSub "check".data part.data || hasSub "verify".data part.data ||
  hasSub "validate".data part.data || hasSub "if ".data part.data ||
  hasSub "?".data part.data

/-- Loop body of the local generator over segment indices, translated from the
`for` loop of `generateLocalFlowchart`.  The fuel is only an upper bound on
the number of iterations; eight suffices because the loop stops before index
eight and every iteration advances the index. -/
def locLoop (fuel : Nat) (parts : List String) (i : Nat) (y : Int) (lastId : String) :
    List FlowchartNode × List FlowchartEdge :=
  match fuel with
  | 0 => ([], [])
  | Nat.succ f =>
    if i < min parts.length 8 then
      let part := parts.getD i ""
      let nodeId := "step-" ++ toString i
      if isDecisionStr part ∧ i < parts.length - 1 then
        let decNode : FlowchartNode := ⟨nodeId, .decision, (250, (y : ℚ)), cleanLabel part⟩
        let inEdge : FlowchartEdge := ⟨"e-" ++ lastId ++ "-" ++ nodeId, lastId, nodeId, none, true⟩
        let yesId := nodeId ++ "-yes"
        let yesNode : FlowchartNode := ⟨yesId, .process, (50, ((y + 120 : Int) : ℚ)), "Continue"⟩
        let yesEdge : FlowchartEdge :=
          ⟨"e-" ++ nodeId ++ "-" ++ yesId, nodeId, yesId, some "Yes", true⟩
        let noId := nodeId ++ "-no"
        let noNode : FlowchartNode := ⟨noId, .process, (450, ((y + 120 : Int) : ℚ)), "Handle"⟩
        let noEdge : FlowchartEdge :=
          ⟨"e-" ++ nodeId ++ "-" ++ noId, nodeId, noId, some "No", true⟩
        let mergeId := "merge-" ++ toString i
        let mergeNode : FlowchartNode :=
          ⟨mergeId,
           if i = parts.length - 2 then .startEnd else .process,
           (250, ((y + 240 : Int) : ℚ)),
           if i = parts.length - 2 then "End"
           else
             let nxt := String.mk ((parts.getD (i + 1) "").data.take 25)
             if nxt = "" then "Next" else nxt⟩
        let yesMerge : FlowchartEdge :=
          ⟨"e-" ++ yesId ++ "-" ++ mergeId, yesId, mergeId, none, true⟩
        let noMerge : FlowchartEdge :=
          ⟨"e-" ++ noId ++ "-" ++ mergeId, noId, mergeId, none, true⟩
        let rest := locLoop f parts (i + 2) (y + 240) mergeId
        (decNode :: yesNode :: noNode :: mergeNode :: rest.1,
         inEdge :: yesEdge :: noEdge :: yesMerge :: noMerge :: rest.2)
      else
        let isEnd := i = parts.length - 1
        let stepNode : FlowchartNode :=
          ⟨nodeId, if isEnd then .startEnd else .process, (250, (y : ℚ)), cleanLabel part⟩
        let stepEdge : FlowchartEdge := ⟨"e-" ++ lastId ++ "-" ++ nodeId, lastId, nodeId, none, true⟩
        let rest := locLoop f parts (i + 1) (y + 120) nodeId
        (stepNode :: rest.1, stepEdge :: rest.2)
    else ([], [])

/-- Model of `generateLocalFlowchart`: a deterministic rule-based graph built
from the prompt alone (the diagram-type argument is received but unused, as in
the source). -/
def generateLocalFlowchart (prompt : String) (ty : String) : AIGeneratedFlow :=
  let parts := segments prompt
  if parts.length ≥ 3 then
    let startNode : FlowchartNode := ⟨"start", .startEnd, (250, 0), cleanLabel (parts.getD 0 "")⟩
    let rest := locLoop 8 parts 1 120 "start"
    ⟨startNode :: rest.1, rest.2⟩
  else
    let midLabel := String.mk (prompt.data.take 25)
    ⟨[⟨"start", .startEnd, (250, 0), "Start"⟩,
      ⟨"process", .process, (250, 120), if midLabel = "" then "Process" else midLabel⟩,
      ⟨"end", .startEnd, (250, 240), "End"⟩],
     [⟨"e1", "start", "process", none, true⟩,
      ⟨"e2", "process", "end", none, true⟩]⟩

/-- Provider adapter for NVIDIA NIM, with the network abstracted: `apiKey` is
the credential from configuration and `content` the textual completion the
request would produce (`none` covering transport failure, timeout, non-success
status and empty payload).  A missing credential skips the adapter. -/
def callNvidiaNIM (apiKey : Option String) (content : Option String) : Option AIGeneratedFlow :=
  match apiKey with
  | none => none
  | some _ =>
    match content with
    | none => none
    | some c =>
      match extractJSON c with
      | none => none
      | some extracted => validateFlowchart extracted

/-- Provider adapter for the direct Kimi API, abstracted the same way. -/
def callKimi (apiKey : Option String) (content : Option String) : Option AIGeneratedFlow :=
  match apiKey with
  | none => none
  | some _ =>
    match content with
    | none => none
    | some c =>
      match extractJSON c with
      | none => none
      | some extracted => validateFlowchart extracted

/-- Responses of the POST handler. -/
inductive PostResult where
  | badRequest : PostResult
  | serverError : PostResult
  | ok : AIGeneratedFlow → String → String → String → PostResult
deriving DecidableEq, Repr

/-- Model of the POST handler: a missing body is the internal-error path, an
empty prompt the client-error path; otherwise the two NVIDIA NIM variants, the
direct Kimi API and finally the local generator are tried in order, the
provenance tag recording the producer.  The three content arguments are the
completions the three network calls would return. -/
def POST (body : Option (String × String)) (nvKey kimiKey : Option String)
    (c1 c2 c3 : Option String) : PostResult :=
  match body with
  | none => .serverError
  | some (prompt, diagramType) =>
    if prompt = "" then .badRequest
    else
      match callNvidiaNIM nvKey c1 with
      | some flow => .ok flow prompt diagramType "nvidia-nim"
      | none =>
        match callNvidiaNIM nvKey c2 with
        | some flow => .ok flow prompt diagramType "kimi-via-nim"
        | none =>
          match callKimi kimiKey c3 with
          | some flow => .ok flow prompt diagramType "kimi"
          | none => .ok (generateLocalFlowchart prompt diagramType) prompt diagramType "local"

/-- Decoded-object form of a sanitized node, for feeding a sanitized graph
back into the sanitizer. -/
def nodeToJson (n : FlowchartNode) : JsonVal :=
  .jobj [("id", .jstr n.id), ("type", .jstr (nodeTypeStr n.type)),
         ("position", .jobj [("x", .jnum n.position.1), ("y", .jnum n.position.2)]),
         ("data", .jobj [("label", .jstr n.label)])]

/-- Decoded-object form of a sanitized edge. -/
def edgeToJson (e : FlowchartEdge) : JsonVal :=
  .jobj ([("id", .jstr e.id), ("source", .jstr e.source), ("target", .jstr e.target)] ++
         (match e.label with
          | some l => [("label", .jstr l)]
          | none => []) ++
         [("animated", .jbool e.animated)])

/-- Decoded-object form of a sanitized graph. -/
def graphToJson (g : AIGeneratedFlow) : JsonVal :=
  .jobj [("nodes", .jarr (g.nodes.map nodeToJson)), ("edges", .jarr (g.edges.map edgeToJson))]

/-- Graph invariants named by the specification: a non-empty node list, edge
endpoints among the node ids, and every edge animated. -/
def graphInvariants (g : AIGeneratedFlow) : Prop :=
  g.nodes ≠ [] ∧
  (∀ e ∈ g.edges, e.source ∈ g.nodes.map (fun n => n.id) ∧
    e.target ∈ g.nodes.map (fun n => n.id)) ∧
  (∀ e ∈ g.edges, e.animated = true)

/-! Helper lemmas about the sanitizer. -/

/-- Inversion of a successful sanitization: the input had array nodes and
edges fields, the raw node list was non-empty, and the output lists are the
filtered-and-normalized forms of the raw lists. -/
theorem validate_some_inv (j : JsonVal) (g : AIGeneratedFlow)
    (h : validateFlowchart j = some g) :
    ∃ ns es, jget j "nodes" = some (.jarr ns) ∧ jget j "edges" = some (.jarr es) ∧
      ns ≠ [] ∧
      g.nodes = (ns.filter keepNode).map mkNode ∧ g.nodes ≠ [] ∧
      g.edges = (es.filter (keepEdge (g.nodes.map (fun n => n.id)))).map mkEdge := by
  unfold validateFlowchart at h
  split at h
  · exact absurd h (by simp)
  · split at h
    · rename_i ns es hns hes
      refine ⟨ns, es, hns, hes, ?_⟩
      split at h
      · exact absurd h (by simp)
      · dsimp only at h
        split at h
        · exact absurd h (by simp)
        · rename_i hlen hnodes
          have hg := (Option.some_inj.mp h).symm
          subst hg
          refine ⟨?_, rfl, ?_, rfl⟩
          · intro hcon; subst hcon; simp at hlen
          · intro hcon
            simp only [] at hcon
            rw [hcon] at hnodes
            simp at hnodes
    · exact absurd h (by simp)

theorem validate_edges_mem (j : JsonVal) (g : AIGeneratedFlow)
    (h : validateFlowchart j = some g) :
    ∀ e ∈ g.edges, e.source ∈ g.nodes.map (fun n => n.id) ∧
      e.target ∈ g.nodes.map (fun n => n.id) := by
  obtain ⟨ns, es, _, _, _, _, _, hedges⟩ := validate_some_inv j g h
  intro e he
  rw [hedges] at he
  rw [List.mem_map] at he
  obtain ⟨e0, he0, rfl⟩ := he
  rw [List.mem_filter] at he0
  obtain ⟨-, hkeep⟩ := he0
  unfold keepEdge at hkeep
  simp only [Bool.and_eq_true] at hkeep
  obtain ⟨⟨-, hsrc⟩, htgt⟩ := hkeep
  constructor
  · have := List.mem_of_elem_eq_true hsrc
    simpa [mkEdge] using this
  · have := List.mem_of_elem_eq_true htgt
    simpa [mkEdge] using this

/-- C2: referential integrity of sanitization — for every input object that
`validateFlowchart` accepts, every edge of the returned graph has its source
and its target among the ids of the returned nodes (edges with an unknown
endpoint having been dropped by the edge filter). -/
theorem sanitize_referential_integrity (j : JsonVal) (g : AIGeneratedFlow)
    (h : validateFlowchart j = some g) :
    ∀ e ∈ g.edges, e.source ∈ g.nodes.map (fun n => n.id) ∧
      e.target ∈ g.nodes.map (fun n => n.id) :=
  validate_edges_mem j g h

/-- Concrete input for the C2 witness: one node `a`, one edge `a → a` and one
dangling edge `a → zz`. -/
def c2input : JsonVal :=
  .jobj [("nodes", .jarr [.jobj [("id", .jstr "a"), ("data", .jobj [("label", .jstr "A")])]]),
         ("edges", .jarr [.jobj [("source", .jstr "a"), ("target", .jstr "a")],
                          .jobj [("source", .jstr "a"), ("target", .jstr "zz")]])]

/-- Sanitized output for the C2 witness: the dangling edge is dropped. -/
def c2output : AIGeneratedFlow :=
  ⟨[⟨"a", .process, ((250 : ℚ), (0 : ℚ)), "A"⟩],
   [⟨"e-a-a", "a", "a", none, true⟩]⟩

/-- Witness for C2 at the concrete input above. -/
theorem sanitize_referential_integrity_witness :
    validateFlowchart c2input = some c2output ∧
      "a" ∈ c2output.nodes.map (fun n => n.id) := by
  refine ⟨rfl, ?_⟩
  have h := sanitize_referential_integrity c2input c2output rfl
    ⟨"e-a-a", "a", "a", none, true⟩ (by simp [c2output])
  exact h.1

/-! Node pass of the sanitizer, written from the specification's words, and
its agreement with the implementation. -/

/-- Test whether a possibly-absent value is exactly the given string tag. -/
def isTag (o : Option JsonVal) (s : String) : Bool :=
  match o with
  | some (.jstr t) => t == s
  | _ => false

/-- Test whether a possibly-absent value is a number. -/
def isNum (o : Option JsonVal) : Bool :=
  match o with
  | some (.jnum _) => true
  | _ => false

/-- Numeric value of a possibly-absent value, zero if it is not a number. -/
def numOf (o : Option JsonVal) : ℚ :=
  match o with
  | some (.jnum q) => q
  | _ => 0

/-- Node pass as described by the specification: an entry lacking a truthy id
or a truthy label is dropped; a kept entry has its kind normalized to process
unless it is one of the four recognized tags, each position axis defaulted
independently (x to 250, y to 0) when not a number, and its label truncated
to 40 characters. -/
def nodePassSpec (n : JsonVal) : Option FlowchartNode :=
  if truthyO (jget n "id") && truthyO (jgetO (jget n "data") "label") then
    some
      { id := jsToString ((jget n "id").getD .jnull)
        type :=
          if isTag (jget n "type") "process" then .process
          else if isTag (jget n "type") "decision" then .decision
          else if isTag (jget n "type") "startEnd" then .startEnd
          else if isTag (jget n "type") "inputOutput" then .inputOutput
          else .process
        position :=
          ((if isNum (jgetO (jget n "position") "x") then numOf (jgetO (jget n "position") "x")
            else 250),
           (if isNum (jgetO (jget n "position") "y") then numOf (jgetO (jget n "position") "y")
            else 0))
        label := String.mk ((jsToString ((jgetO (jget n "data") "label").getD .jnull)).data.take 40) }
  else none

/-- Values without fields are exactly the non-objects, and no falsy value is
an object. -/
theorem jget_of_falsy (n : JsonVal) (h : truthyV n = false) (k : String) :
    jget n k = none := by
  cases n <;> simp_all [truthyV, jget]

/-- The recognized-tag coercion agrees with its specification form. -/
theorem coerceType_eq_tags (o : Option JsonVal) :
    coerceType o =
      (if isTag o "process" then .process
       else if isTag o "decision" then .decision
       else if isTag o "startEnd" then .startEnd
       else if isTag o "inputOutput" then .inputOutput
       else .process) := by
  unfold coerceType
  split
  · rfl
  · rfl
  · rfl
  · rfl
  · rename_i h1 h2 h3 h4
    rcases o with _ | v
    · rfl
    · cases v <;> simp_all [isTag]

/-- The position-axis coercion agrees with its specification form. -/
theorem coerceAxis_eq_num (o : Option JsonVal) (d : ℚ) :
    coerceAxis o d = (if isNum o then numOf o else d) := by
  unfold coerceAxis
  split
  · rfl
  · rename_i h
    rcases o with _ | v
    · rfl
    · cases v <;> first
        | rfl
        | (rename_i q; exact absurd rfl (h q))

/-- Pointwise agreement of the specification node pass with the implementation
filter and normalization. -/
theorem nodePassSpec_eq (n : JsonVal) :
    nodePassSpec n = if keepNode n then some (mkNode n) else none := by
  unfold nodePassSpec keepNode mkNode
  by_cases hn : truthyV n = true
  · rw [hn]
    simp only [Bool.true_and]
    by_cases hc : (truthyO (jget n "id") && truthyO (jgetO (jget n "data") "label")) = true
    · rw [if_pos hc, if_pos hc]
      rw [coerceType_eq_tags, coerceAxis_eq_num, coerceAxis_eq_num]
    · rw [if_neg hc, if_neg hc]
  · rw [jget_of_falsy n (by simpa using hn) "id"]
    simp only [Bool.not_eq_true] at hn
    rw [hn]
    simp [truthyO, truthyV]

/-- List-level agreement of the two node passes. -/
theorem nodePass_filterMap (ns : List JsonVal) :
    ns.filterMap nodePassSpec = (ns.filter keepNode).map mkNode := by
  induction ns with
  | nil => rfl
  | cons n rest ih =>
    rw [List.filterMap_cons, List.filter_cons, nodePassSpec_eq n]
    by_cases h : keepNode n
    · simp [h, ih]
    · simp [h, ih]

/-- C5: node pass of the sanitizer — every raw node entry lacking a truthy id
or a truthy label is dropped, kept entries are normalized (kind coerced to
process when unrecognized, position axes independently defaulted to 250 and 0,
label truncated to 40 characters), and when zero nodes survive the whole
sanitize call returns invalid. -/
theorem sanitize_node_pass (j : JsonVal) (ns es : List JsonVal)
    (hns : jget j "nodes" = some (.jarr ns)) (hes : jget j "edges" = some (.jarr es)) :
    (ns.filterMap nodePassSpec = [] → validateFlowchart j = none) ∧
    (∀ g, validateFlowchart j = some g → g.nodes = ns.filterMap nodePassSpec) := by
  constructor
  · intro hempty
    rw [nodePass_filterMap] at hempty
    cases hv : validateFlowchart j with
    | none => rfl
    | some g =>
      obtain ⟨ns', es', hns', -, -, hnodes, hne, -⟩ := validate_some_inv j g hv
      rw [hns] at hns'
      have hns2 : ns' = ns := by
        have h2 := Option.some_inj.mp hns'
        injection h2.symm
      rw [hns2] at hnodes
      exact absurd (hnodes.trans hempty) hne
  · intro g hg
    obtain ⟨ns', es', hns', hes', -, hnodes, -, -⟩ := validate_some_inv j g hg
    rw [hns] at hns'
    rw [nodePass_filterMap]
    have hns2 : ns' = ns := by
      have h2 := Option.some_inj.mp hns'
      injection h2.symm
    rw [hnodes, hns2]

/-- Concrete input for the C5 witness: one valid node, one node without a
label, one falsy entry; the second node must be dropped. -/
def c5input : JsonVal :=
  .jobj [("nodes", .jarr [.jobj [("id", .jstr "a"), ("type", .jstr "weird"),
                                 ("data", .jobj [("label", .jstr "A")])],
                          .jobj [("id", .jstr "b")],
                          .jnull]),
         ("edges", .jarr [])]

/-- Raw node list of the C5 witness. -/
def c5ns : List JsonVal :=
  [.jobj [("id", .jstr "a"), ("type", .jstr "weird"),
          ("data", .jobj [("label", .jstr "A")])],
   .jobj [("id", .jstr "b")],
   .jnull]

/-- Sanitized output of the C5 witness: only node `a` survives, its kind
coerced to process. -/
def c5output : AIGeneratedFlow :=
  ⟨[⟨"a", .process, ((250 : ℚ), (0 : ℚ)), "A"⟩], []⟩

/-- Witness for C5 at the concrete input above. -/
theorem sanitize_node_pass_witness :
    validateFlowchart c5input = some c5output ∧
      c5output.nodes = c5ns.filterMap nodePassSpec := by
  refine ⟨rfl, ?_⟩
  exact (sanitize_node_pass c5input c5ns [] rfl rfl).2 c5output rfl

/-! Idempotency analysis of the sanitizer. -/

theorem validate_nodes_label_le (j : JsonVal) (g : AIGeneratedFlow)
    (h : validateFlowchart j = some g) :
    ∀ n ∈ g.nodes, n.label.data.length ≤ 40 := by
  obtain ⟨ns, es, -, -, -, hnodes, -, -⟩ := validate_some_inv j g h
  intro n hn
  rw [hnodes, List.mem_map] at hn
  obtain ⟨n0, -, rfl⟩ := hn
  simp only [mkNode]
  calc (((jsToString ((jgetO (jget n0 "data") "label").getD .jnull)).data.take 40)).length
      ≤ 40 := List.length_take_le 40 _

theorem validate_edges_animated (j : JsonVal) (g : AIGeneratedFlow)
    (h : validateFlowchart j = some g) :
    ∀ e ∈ g.edges, e.animated = true := by
  obtain ⟨ns, es, -, -, -, -, -, hedges⟩ := validate_some_inv j g h
  intro e he
  rw [hedges, List.mem_map] at he
  obtain ⟨e0, -, rfl⟩ := he
  rfl

/-- Computation rule for the sanitizer on a two-field object literal. -/
theorem validateFlowchart_jobj (ns es : List JsonVal) :
    validateFlowchart (.jobj [("nodes", .jarr ns), ("edges", .jarr es)]) =
      (if ns.length = 0 then none
       else if ((ns.filter keepNode).map mkNode).length = 0 then none
       else some ⟨(ns.filter keepNode).map mkNode,
         (es.filter (keepEdge (((ns.filter keepNode).map mkNode).map (fun n => n.id)))).map
           mkEdge⟩) := rfl

theorem jget_nodesField (g : AIGeneratedFlow) :
    jget (graphToJson g) "nodes" = some (.jarr (g.nodes.map nodeToJson)) := by
  simp [graphToJson, jget, lookupLast]

theorem jget_edgesField (g : AIGeneratedFlow) :
    jget (graphToJson g) "edges" = some (.jarr (g.edges.map edgeToJson)) := by
  simp [graphToJson, jget, lookupLast]

theorem keepNode_nodeToJson (n : FlowchartNode) (hid : n.id ≠ "") (hlab : n.label ≠ "") :
    keepNode (nodeToJson n) = true := by
  simp [keepNode, nodeToJson, jget, jgetO, lookupLast, truthyO, truthyV, hid, hlab]

theorem mkNode_nodeToJson (n : FlowchartNode) (hlen : n.label.data.length ≤ 40) :
    mkNode (nodeToJson n) = n := by
  obtain ⟨i, ty, ⟨x, y⟩, lab⟩ := n
  simp only at hlen
  have hty : coerceType (some (.jstr (nodeTypeStr ty))) = ty := by cases ty <;> rfl
  have hstr : ∀ s : String, jsToString (.jstr s) = s := fun s => rfl
  have htake : lab.data.take 40 = lab.data := List.take_of_length_le hlen
  simp [mkNode, nodeToJson, jget, jgetO, lookupLast, hty, hstr, coerceAxis, htake]

theorem jget_edgeToJson_id (e : FlowchartEdge) :
    jget (edgeToJson e) "id" = some (.jstr e.id) := by
  obtain ⟨i, s, t, l, a⟩ := e
  cases l <;> rfl

theorem jget_edgeToJson_source (e : FlowchartEdge) :
    jget (edgeToJson e) "source" = some (.jstr e.source) := by
  obtain ⟨i, s, t, l, a⟩ := e
  cases l <;> rfl

theorem jget_edgeToJson_target (e : FlowchartEdge) :
    jget (edgeToJson e) "target" = some (.jstr e.target) := by
  obtain ⟨i, s, t, l, a⟩ := e
  cases l <;> rfl

theorem jget_edgeToJson_label (e : FlowchartEdge) :
    jget (edgeToJson e) "label" = e.label.map (fun l => .jstr l) := by
  obtain ⟨i, s, t, l, a⟩ := e
  cases l <;> rfl

theorem keepEdge_edgeToJson (ids : List String) (e : FlowchartEdge)
    (hsne : e.source ≠ "") (htne : e.target ≠ "")
    (hs : ids.contains e.source = true) (ht : ids.contains e.target = true) :
    keepEdge ids (edgeToJson e) = true := by
  unfold keepEdge
  rw [jget_edgeToJson_source, jget_edgeToJson_target]
  have h0 : truthyV (edgeToJson e) = true := rfl
  have hstr : ∀ s : String, jsToString (.jstr s) = s := fun s => rfl
  rw [h0]
  simp only [Option.getD_some, truthyO, truthyV, hstr, hsne, htne, Bool.true_and, ne_eq,
    not_false_eq_true, Bool.and_eq_true, decide_eq_true_eq]
  refine ⟨⟨?_, ?_⟩, ?_⟩
  · simp
  · exact hs
  · exact ht

theorem mkEdge_edgeToJson (e : FlowchartEdge) (hid : e.id ≠ "")
    (hlab : e.label ≠ some "") (hanim : e.animated = true) :
    mkEdge (edgeToJson e) = e := by
  have h1 := jget_edgeToJson_id e
  have h2 := jget_edgeToJson_source e
  have h3 := jget_edgeToJson_target e
  have h4 := jget_edgeToJson_label e
  obtain ⟨i, s, t, l, a⟩ := e
  simp only at h1 h2 h3 h4 hid hlab hanim
  subst hanim
  cases l with
  | none =>
    simp at h4
    simp [mkEdge, h1, h2, h3, h4, truthyO, truthyV, hid, jsToString]
  | some lv =>
    have hlv : lv ≠ "" := by
      intro hcon
      exact hlab (by rw [hcon])
    simp at h4
    simp [mkEdge, h1, h2, h3, h4, truthyO, truthyV, hid, hlv, jsToString]

/-- Counterexample input to idempotency: the node id is an empty array, which
is truthy but stringifies to the empty string. -/
def c4input : JsonVal :=
  .jobj [("nodes", .jarr [.jobj [("id", .jarr []), ("data", .jobj [("label", .jstr "A")])]]),
         ("edges", .jarr [])]

/-- First sanitization of the counterexample input: the surviving node has an
empty id. -/
def c4output : AIGeneratedFlow :=
  ⟨[⟨"", .process, ((250 : ℚ), (0 : ℚ)), "A"⟩], []⟩

/-- Counterexample to C4: `validateFlowchart` accepts an input whose sanitized
form it then rejects — the node id `[]` is truthy, so the node is kept, but
its string form is empty, so re-sanitization drops the only node and fails.
Idempotency as claimed is therefore false. -/
theorem sanitize_not_idempotent :
    validateFlowchart c4input = some c4output ∧
      validateFlowchart (graphToJson c4output) = none := ⟨rfl, rfl⟩

/-- C4 as amended: the sanitizer is idempotent on every accepted input whose
sanitized output contains no empty node id, node label, edge id, or empty
edge label — re-sanitizing such an output succeeds and returns it unchanged.
(Empty strings in those positions can arise only from exotic truthy raw
values such as empty arrays, whose JavaScript string form is empty.) -/
theorem sanitize_idempotent_amended (j : JsonVal) (g : AIGeneratedFlow)
    (h : validateFlowchart j = some g)
    (hnid : ∀ n ∈ g.nodes, n.id ≠ "")
    (hnlab : ∀ n ∈ g.nodes, n.label ≠ "")
    (heid : ∀ e ∈ g.edges, e.id ≠ "")
    (hlabE : ∀ e ∈ g.edges, e.label ≠ some "") :
    validateFlowchart (graphToJson g) = some g := by
  obtain ⟨ns, es, -, -, -, -, hgne, -⟩ := validate_some_inv j g h
  have hfilterN : (g.nodes.map nodeToJson).filter keepNode = g.nodes.map nodeToJson := by
    rw [List.filter_eq_self]
    intro x hx
    rw [List.mem_map] at hx
    obtain ⟨n, hn, rfl⟩ := hx
    exact keepNode_nodeToJson n (hnid n hn) (hnlab n hn)
  have hmapN : (g.nodes.map nodeToJson).map mkNode = g.nodes := by
    rw [List.map_map]
    have : ∀ n ∈ g.nodes, (mkNode ∘ nodeToJson) n = n := by
      intro n hn
      exact mkNode_nodeToJson n (validate_nodes_label_le j g h n hn)
    calc g.nodes.map (mkNode ∘ nodeToJson) = g.nodes.map id := List.map_congr_left this
    _ = g.nodes := List.map_id g.nodes
  have hfilterE : (g.edges.map edgeToJson).filter (keepEdge (g.nodes.map (fun n => n.id))) =
      g.edges.map edgeToJson := by
    rw [List.filter_eq_self]
    intro x hx
    rw [List.mem_map] at hx
    obtain ⟨e, he, rfl⟩ := hx
    obtain ⟨hsmem, htmem⟩ := validate_edges_mem j g h e he
    refine keepEdge_edgeToJson _ e ?_ ?_ ?_ ?_
    · have := List.mem_map.mp hsmem
      obtain ⟨n, hn, hv⟩ := this
      rw [← hv]
      exact hnid n hn
    · have := List.mem_map.mp htmem
      obtain ⟨n, hn, hv⟩ := this
      rw [← hv]
      exact hnid n hn
    · exact List.elem_eq_true_of_mem hsmem
    · exact List.elem_eq_true_of_mem htmem
  have hmapE : (g.edges.map edgeToJson).map mkEdge = g.edges := by
    rw [List.map_map]
    have : ∀ e ∈ g.edges, (mkEdge ∘ edgeToJson) e = e := by
      intro e he
      exact mkEdge_edgeToJson e (heid e he) (hlabE e he) (validate_edges_animated j g h e he)
    calc g.edges.map (mkEdge ∘ edgeToJson) = g.edges.map id := List.map_congr_left this
    _ = g.edges := List.map_id g.edges
  show validateFlowchart
      (.jobj [("nodes", .jarr (g.nodes.map nodeToJson)),
              ("edges", .jarr (g.edges.map edgeToJson))]) = some g
  rw [validateFlowchart_jobj]
  rw [if_neg (by simp [hgne])]
  rw [hfilterN, hmapN]
  rw [if_neg (by simp [hgne])]
  rw [hfilterE, hmapE]

/-- Well-behaved concrete input for the C4 witness. -/
def c4goodInput : JsonVal :=
  .jobj [("nodes", .jarr [.jobj [("id", .jstr "a"), ("type", .jstr "decision"),
                                 ("data", .jobj [("label", .jstr "A")])]]),
         ("edges", .jarr [.jobj [("source", .jstr "a"), ("target", .jstr "a"),
                                 ("label", .jstr "loop")]])]

/-- Sanitized output for the C4 witness. -/
def c4goodOutput : AIGeneratedFlow :=
  ⟨[⟨"a", .decision, ((250 : ℚ), (0 : ℚ)), "A"⟩],
   [⟨"e-a-a", "a", "a", some "loop", true⟩]⟩

/-- Witness for the amended C4 at a concrete accepted input. -/
theorem sanitize_idempotent_amended_witness :
    validateFlowchart c4goodInput = some c4goodOutput ∧
      validateFlowchart (graphToJson c4goodOutput) = some c4goodOutput := by
  refine ⟨rfl, ?_⟩
  exact sanitize_idempotent_amended c4goodInput c4goodOutput rfl
    (by decide) (by decide) (by decide) (by decide)

/-- C9: the local generator ignores its diagram-type argument entirely — for
every prompt and every pair of diagram-type tags the produced graphs are
equal; the local output depends only on the prompt text. -/
theorem localFlowchart_ignores_diagramType (prompt t1 t2 : String) :
    generateLocalFlowchart prompt t1 = generateLocalFlowchart prompt t2 := rfl

/-! Local generator: skeleton case, the worked examples, and the loop. -/

/-- C6: for every prompt splitting into fewer than 3 segments the local
generator returns exactly the fixed three-node skeleton — a startEnd Start
node, one process node carrying the prompt truncated to 25 characters (the
placeholder Process when that is empty), and a startEnd End node — linearly
chained by exactly two animated edges. -/
theorem localFlowchart_skeleton (prompt t : String)
    (h : (segments prompt).length < 3) :
    generateLocalFlowchart prompt t =
      ⟨[⟨"start", .startEnd, (250, 0), "Start"⟩,
        ⟨"process", .process, (250, 120),
          if String.mk (prompt.data.take 25) = "" then "Process"
          else String.mk (prompt.data.take 25)⟩,
        ⟨"end", .startEnd, (250, 240), "End"⟩],
       [⟨"e1", "start", "process", none, true⟩,
        ⟨"e2", "process", "end", none, true⟩]⟩ := by
  unfold generateLocalFlowchart
  rw [if_neg (by omega)]

/-- Witness for C6 at the prompt of the specification's example. -/
theorem localFlowchart_skeleton_witness :
    (segments "launch product").length < 3 ∧
      generateLocalFlowchart "launch product" "process" =
        ⟨[⟨"start", .startEnd, (250, 0), "Start"⟩,
          ⟨"process", .process, (250, 120), "launch product"⟩,
          ⟨"end", .startEnd, (250, 240), "End"⟩],
         [⟨"e1", "start", "process", none, true⟩,
          ⟨"e2", "process", "end", none, true⟩]⟩ := by
  refine ⟨by decide, ?_⟩
  rw [localFlowchart_skeleton "launch product" "process" (by decide)]
  rfl

/-- Counterexample to C3: in the prompt of the specification's example the
second segment is `check stock`, which contains the decision keyword `check`
and is not final, so the generator emits a decision node — the output is not
a keyword-free linear chain as the claim asserts. -/
theorem localFlowchart_example_not_linear :
    segments "receive order, check stock, ship order" =
        ["receive order", "check stock", "ship order"] ∧
      isDecisionStr "check stock" = true ∧
      ((generateLocalFlowchart "receive order, check stock, ship order" "process").nodes.filter
        (fun n => n.type == NodeType.decision)).length = 1 := by
  exact ⟨rfl, rfl, rfl⟩

/-- C3 as amended: for the prompt of the example (and any diagram type), the
generator returns a five-node graph — a startEnd node labelled from segment 0,
a decision node for segment 1 (which contains the keyword check) with Yes- and
No-labelled edges to the Continue and Handle process nodes, rejoining at a
startEnd merge node labelled End — with every edge animated. -/
theorem localFlowchart_example_amended (t : String) :
    generateLocalFlowchart "receive order, check stock, ship order" t =
      ⟨[⟨"start", .startEnd, (250, 0), "receive order"⟩,
        ⟨"step-1", .decision, (250, 120), "check stock"⟩,
        ⟨"step-1-yes", .process, (50, 240), "Continue"⟩,
        ⟨"step-1-no", .process, (450, 240), "Handle"⟩,
        ⟨"merge-1", .startEnd, (250, 360), "End"⟩],
       [⟨"e-start-step-1", "start", "step-1", none, true⟩,
        ⟨"e-step-1-step-1-yes", "step-1", "step-1-yes", some "Yes", true⟩,
        ⟨"e-step-1-step-1-no", "step-1", "step-1-no", some "No", true⟩,
        ⟨"e-step-1-yes-merge-1", "step-1-yes", "merge-1", none, true⟩,
        ⟨"e-step-1-no-merge-1", "step-1-no", "merge-1", none, true⟩]⟩ := by
  rfl

/-- Counterexample to C7: in `a, b?, c?, d` segment 2 is `c?`, which contains
a decision keyword and is not final, yet the graph holds exactly one decision
node — segment 2 was consumed as the merge label of the decision at segment 1
and produced no decision node of its own. -/
theorem localFlowchart_swallowed_decision :
    (segments "a, b?, c?, d").getD 2 "" = "c?" ∧
      isDecisionStr "c?" = true ∧
      (segments "a, b?, c?, d").length - 1 ≠ 2 ∧
      ((generateLocalFlowchart "a, b?, c?, d" "process").nodes.filter
        (fun n => n.type == NodeType.decision)).length = 1 := by
  exact ⟨rfl, rfl, by decide, rfl⟩

/-- C7 as amended: a segment that the loop actually visits (at an index below
the eight-segment cap and not consumed as the merge label of a preceding
decision) whose text contains a decision keyword and that is not the final
segment produces a decision node with Yes- and No-labelled edges to the
Continue and Handle process nodes, rejoining at a merge node; the prompt
`visit site, verify email, create profile` produces exactly such a step. -/
theorem locLoop_decision_step (f : Nat) (parts : List String) (i : Nat) (y : Int)
    (lastId : String)
    (hi : i < min parts.length 8)
    (hdec : isDecisionStr (parts.getD i "") = true)
    (hnf : i < parts.length - 1) :
    locLoop (f + 1) parts i y lastId =
      (⟨"step-" ++ toString i, .decision, (250, (y : ℚ)), cleanLabel (parts.getD i "")⟩ ::
       ⟨"step-" ++ toString i ++ "-yes", .process, (50, ((y + 120 : Int) : ℚ)), "Continue"⟩ ::
       ⟨"step-" ++ toString i ++ "-no", .process, (450, ((y + 120 : Int) : ℚ)), "Handle"⟩ ::
       ⟨"merge-" ++ toString i,
        if i = parts.length - 2 then .startEnd else .process,
        (250, ((y + 240 : Int) : ℚ)),
        if i = parts.length - 2 then "End"
        else
          if String.mk ((parts.getD (i + 1) "").data.take 25) = "" then "Next"
          else String.mk ((parts.getD (i + 1) "").data.take 25)⟩ ::
       (locLoop f parts (i + 2) (y + 240) ("merge-" ++ toString i)).1,
       ⟨"e-" ++ lastId ++ "-" ++ ("step-" ++ toString i), lastId, "step-" ++ toString i,
         none, true⟩ ::
       ⟨"e-" ++ ("step-" ++ toString i) ++ "-" ++ ("step-" ++ toString i ++ "-yes"),
         "step-" ++ toString i, "step-" ++ toString i ++ "-yes", some "Yes", true⟩ ::
       ⟨"e-" ++ ("step-" ++ toString i) ++ "-" ++ ("step-" ++ toString i ++ "-no"),
         "step-" ++ toString i, "step-" ++ toString i ++ "-no", some "No", true⟩ ::
       ⟨"e-" ++ ("step-" ++ toString i ++ "-yes") ++ "-" ++ ("merge-" ++ toString i),
         "step-" ++ toString i ++ "-yes", "merge-" ++ toString i, none, true⟩ ::
       ⟨"e-" ++ ("step-" ++ toString i ++ "-no") ++ "-" ++ ("merge-" ++ toString i),
         "step-" ++ toString i ++ "-no", "merge-" ++ toString i, none, true⟩ ::
       (locLoop f parts (i + 2) (y + 240) ("merge-" ++ toString i)).2) := by
  rw [locLoop]
  rw [if_pos hi]
  rw [if_pos ⟨hdec, hnf⟩]

/-- Witness for the amended C7 at the specification's example prompt: the
loop step at index 1 of `visit site, verify email, create profile`. -/
theorem locLoop_decision_step_witness :
    locLoop 8 ["visit site", "verify email", "create profile"] 1 120 "start" =
      ([⟨"step-1", .decision, (250, 120), "verify email"⟩,
        ⟨"step-1-yes", .process, (50, 240), "Continue"⟩,
        ⟨"step-1-no", .process, (450, 240), "Handle"⟩,
        ⟨"merge-1", .startEnd, (250, 360), "End"⟩],
       [⟨"e-start-step-1", "start", "step-1", none, true⟩,
        ⟨"e-step-1-step-1-yes", "step-1", "step-1-yes", some "Yes", true⟩,
        ⟨"e-step-1-step-1-no", "step-1", "step-1-no", some "No", true⟩,
        ⟨"e-step-1-yes-merge-1", "step-1-yes", "merge-1", none, true⟩,
        ⟨"e-step-1-no-merge-1", "step-1-no", "merge-1", none, true⟩]) := by
  rw [locLoop_decision_step 7 ["visit site", "verify email", "create profile"] 1 120 "start"
    (by decide) (by decide) (by decide)]
  rfl

/-! Segment-cap behaviour of the local generator. -/

theorem locLoop_no_startEnd (parts : List String) (h10 : 10 ≤ parts.length) :
    ∀ (f i : Nat) (y : Int) (last : String), ∀ n ∈ (locLoop f parts i y last).1,
      n.type ≠ NodeType.startEnd := by
  intro f
  induction f with
  | zero =>
    intro i y last n hn
    simp [locLoop] at hn
  | succ f ih =>
    intro i y last n hn
    rw [locLoop] at hn
    by_cases hi : i < min parts.length 8
    · rw [if_pos hi] at hn
      have hi8 : i < 8 := lt_of_lt_of_le hi (min_le_right _ _)
      by_cases hd : isDecisionStr (parts.getD i "") = true ∧ i < parts.length - 1
      · rw [if_pos hd] at hn
        simp only [List.mem_cons] at hn
        rcases hn with rfl | rfl | rfl | rfl | hmem
        · simp
        · simp
        · simp
        · have hne : ¬ i = parts.length - 2 := by omega
          simp only [if_neg hne]
          simp
        · exact ih (i + 2) (y + 240) _ n hmem
      · rw [if_neg hd] at hn
        simp only [List.mem_cons] at hn
        rcases hn with rfl | hmem
        · have hne : ¬ i = parts.length - 1 := by omega
          simp only [if_neg hne]
          simp
        · exact ih (i + 1) (y + 120) _ n hmem
    · rw [if_neg hi] at hn
      simp at hn

theorem getD_take_eq (l1 l2 : List String) (m : Nat) (h : l1.take m = l2.take m)
    (i : Nat) (hi : i < m) : l1.getD i "" = l2.getD i "" := by
  have h1 : (l1.take m).getD i "" = l1.getD i "" := by
    rw [List.getD_eq_getD_get?, List.getD_eq_getD_get?, List.get?_take hi]
  have h2 : (l2.take m).getD i "" = l2.getD i "" := by
    rw [List.getD_eq_getD_get?, List.getD_eq_getD_get?, List.get?_take hi]
  rw [← h1, ← h2, h]

theorem locLoop_take9_congr (parts parts2 : List String)
    (h1 : 10 ≤ parts.length) (h2 : 10 ≤ parts2.length)
    (htake : parts2.take 9 = parts.take 9) :
    ∀ (f i : Nat) (y : Int) (last : String),
      locLoop f parts2 i y last = locLoop f parts i y last := by
  intro f
  induction f with
  | zero => intro i y last; rfl
  | succ f ih =>
    intro i y last
    rw [locLoop, locLoop]
    have hmin : min parts2.length 8 = min parts.length 8 := by omega
    rw [hmin]
    by_cases hi : i < min parts.length 8
    · rw [if_pos hi, if_pos hi]
      have hi8 : i < 8 := lt_of_lt_of_le hi (min_le_right _ _)
      have hgd : parts2.getD i "" = parts.getD i "" :=
        getD_take_eq parts2 parts 9 htake i (by omega)
      have hgd1 : parts2.getD (i + 1) "" = parts.getD (i + 1) "" :=
        getD_take_eq parts2 parts 9 htake (i + 1) (by omega)
      have hnf : (i < parts2.length - 1) = (i < parts.length - 1) := by
        simp only [eq_iff_iff]
        omega
      have hm2 : (i = parts2.length - 2) = (i = parts.length - 2) := by
        simp only [eq_iff_iff]
        omega
      have hm1 : (i = parts2.length - 1) = (i = parts.length - 1) := by
        simp only [eq_iff_iff]
        omega
      simp only [hgd, hgd1, hnf, hm2, hm1, ih]
    · rw [if_neg hi, if_neg hi]

/-- Counterexample to C10: the prompt splits into 11 segments; segment 7 is a
decision step, so segment 8 — the ninth segment, here literally `End` — is
consumed as the merge label, producing a process node labelled End.  This
falsifies both the only-first-8-segments clause and the no-node-labelled-End
clause of the claim. -/
theorem localFlowchart_cap_counterexample :
    (segments "a,b,c,d,e,f,g,check h,End,j,k").length = 11 ∧
      (generateLocalFlowchart "a,b,c,d,e,f,g,check h,End,j,k" "process").nodes.any
        (fun n => n.label == "End" && n.type == NodeType.process) = true ∧
      (segments "a,b,c,d,e,f,g,check h,Nine,j,k").take 8 =
        (segments "a,b,c,d,e,f,g,check h,End,j,k").take 8 ∧
      generateLocalFlowchart "a,b,c,d,e,f,g,check h,Nine,j,k" "process" ≠
        generateLocalFlowchart "a,b,c,d,e,f,g,check h,End,j,k" "process" := by
  exact ⟨rfl, rfl, rfl, by decide⟩

/-- C10 as amended: for every prompt splitting into 10 or more segments the
output depends only on the first 9 segments (the loop visits indices 1
through 7, and a decision at index 7 reads segment 8 as its merge label);
the graph contains exactly one startEnd node — the start node, which heads
the node list — and every other node (in particular the chain's last node)
is a process, decision or merge node, never a terminal startEnd node, though
a process node may carry the text End when a segment says so. -/
theorem localFlowchart_segment_cap_amended (prompt t : String)
    (h10 : 10 ≤ (segments prompt).length) :
    (((generateLocalFlowchart prompt t).nodes.filter
        (fun n => n.type == NodeType.startEnd)).length = 1) ∧
    ((generateLocalFlowchart prompt t).nodes.head?.map (fun n => n.type) =
      some NodeType.startEnd) ∧
    (∀ n ∈ (generateLocalFlowchart prompt t).nodes.tail, n.type ≠ NodeType.startEnd) ∧
    (∀ prompt2, 10 ≤ (segments prompt2).length →
      (segments prompt2).take 9 = (segments prompt).take 9 →
      generateLocalFlowchart prompt2 t = generateLocalFlowchart prompt t) := by
  have h3 : (segments prompt).length ≥ 3 := by omega
  have hloop := locLoop_no_startEnd (segments prompt) h10 8 1 120 "start"
  unfold generateLocalFlowchart
  rw [if_pos h3]
  refine ⟨?_, rfl, ?_, ?_⟩
  · dsimp only
    rw [List.filter_cons]
    have hdrop : (locLoop 8 (segments prompt) 1 120 "start").1.filter
        (fun n => n.type == NodeType.startEnd) = [] := by
      rw [List.filter_eq_nil]
      intro n hn
      simpa using hloop n hn
    simp [hdrop]
  · dsimp only
    intro n hn
    exact hloop n hn
  · intro prompt2 h10b htake
    have h3b : (segments prompt2).length ≥ 3 := by omega
    rw [if_pos h3b]
    have hgd0 : (segments prompt2).getD 0 "" = (segments prompt).getD 0 "" :=
      getD_take_eq (segments prompt2) (segments prompt) 9 htake 0 (by omega)
    rw [hgd0, locLoop_take9_congr (segments prompt) (segments prompt2) h10 h10b htake]

/-- Witness for the amended C10 at an 11-segment prompt. -/
theorem localFlowchart_segment_cap_witness :
    10 ≤ (segments "a,b,c,d,e,f,g,h,i,j,k").length ∧
      (((generateLocalFlowchart "a,b,c,d,e,f,g,h,i,j,k" "process").nodes.filter
        (fun n => n.type == NodeType.startEnd)).length = 1) := by
  refine ⟨by decide, ?_⟩
  exact (localFlowchart_segment_cap_amended "a,b,c,d,e,f,g,h,i,j,k" "process" (by decide)).1

/-! Totality and invariants of the orchestrator's local fallback. -/

theorem locLoop_edges_inv (parts : List String) :
    ∀ (f i : Nat) (y : Int) (last : String), ∀ e ∈ (locLoop f parts i y last).2,
      e.animated = true ∧
      e.source ∈ last :: (locLoop f parts i y last).1.map (fun n => n.id) ∧
      e.target ∈ (locLoop f parts i y last).1.map (fun n => n.id) := by
  intro f
  induction f with
  | zero =>
    intro i y last e he
    simp [locLoop] at he
  | succ f ih =>
    intro i y last e he
    rw [locLoop] at he ⊢
    by_cases hi : i < min parts.length 8
    · rw [if_pos hi] at he ⊢
      by_cases hd : isDecisionStr (parts.getD i "") = true ∧ i < parts.length - 1
      · rw [if_pos hd] at he ⊢
        simp only [List.mem_cons] at he
        dsimp only at he ⊢
        rcases he with rfl | rfl | rfl | rfl | rfl | hmem
        · exact ⟨rfl, by simp, by simp⟩
        · exact ⟨rfl, by simp, by simp⟩
        · exact ⟨rfl, by simp, by simp⟩
        · exact ⟨rfl, by simp, by simp⟩
        · exact ⟨rfl, by simp, by simp⟩
        · obtain ⟨ha, hs, ht⟩ := ih (i + 2) (y + 240) ("merge-" ++ toString i) e hmem
          refine ⟨ha, ?_, ?_⟩
          · rcases List.mem_cons.mp hs with h' | h'
            · rw [h']
              simp
            · simp only [List.mem_cons, List.map_cons] at h' ⊢
              tauto
          · simp only [List.mem_cons, List.map_cons] at ht ⊢
            tauto
      · rw [if_neg hd] at he ⊢
        simp only [List.mem_cons] at he
        dsimp only at he ⊢
        rcases he with rfl | hmem
        · exact ⟨rfl, by simp, by simp⟩
        · obtain ⟨ha, hs, ht⟩ := ih (i + 1) (y + 120) ("step-" ++ toString i) e hmem
          refine ⟨ha, ?_, ?_⟩
          · rcases List.mem_cons.mp hs with h' | h'
            · rw [h']
              simp
            · simp only [List.mem_cons, List.map_cons] at h' ⊢
              tauto
          · simp only [List.mem_cons, List.map_cons] at ht ⊢
            tauto
    · rw [if_neg hi] at he
      simp at he

theorem localFlowchart_invariants (prompt t : String) :
    graphInvariants (generateLocalFlowchart prompt t) := by
  unfold generateLocalFlowchart graphInvariants
  by_cases h3 : (segments prompt).length ≥ 3
  · rw [if_pos h3]
    dsimp only
    refine ⟨by simp, ?_, ?_⟩
    · intro e he
      obtain ⟨-, hs, ht⟩ := locLoop_edges_inv (segments prompt) 8 1 120 "start" e he
      constructor
      · simpa using hs
      · simp only [List.map_cons, List.mem_cons]
        right
        exact ht
    · intro e he
      exact (locLoop_edges_inv (segments prompt) 8 1 120 "start" e he).1
  · rw [if_neg h3]
    refine ⟨by simp, ?_, ?_⟩
    · intro e he
      simp only [List.mem_cons] at he
      rcases he with rfl | rfl | he
      · exact ⟨by simp, by simp⟩
      · exact ⟨by simp, by simp⟩
      · simp at he
    · intro e he
      simp only [List.mem_cons] at he
      rcases he with rfl | rfl | he
      · rfl
      · rfl
      · simp at he

/-- C1: totality of the generation chain on well-formed requests — for every
non-empty prompt, when every provider adapter yields none (in particular when
no provider credential is configured, so both NVIDIA NIM variants and the
direct Kimi call skip regardless of what the network would have returned),
the POST handler responds with the local generator's graph under the
provenance tag local, and that graph satisfies the Graph invariants:
non-empty node list, every edge's endpoints among the node ids, and all
edges animated. -/
theorem orchestrator_total_local_fallback (prompt dt : String) (c1 c2 c3 : Option String)
    (h : prompt ≠ "") :
    POST (some (prompt, dt)) none none c1 c2 c3 =
      .ok (generateLocalFlowchart prompt dt) prompt dt "local" ∧
    graphInvariants (generateLocalFlowchart prompt dt) := by
  refine ⟨?_, localFlowchart_invariants prompt dt⟩
  simp only [POST, callNvidiaNIM, callKimi]
  rw [if_neg h]

/-- Witness for C1 at a concrete prompt. -/
theorem orchestrator_total_local_fallback_witness :
    POST (some ("make tea", "process")) none none none none none =
      .ok (generateLocalFlowchart "make tea" "process") "make tea" "process" "local" ∧
    graphInvariants (generateLocalFlowchart "make tea" "process") :=
  orchestrator_total_local_fallback "make tea" "process" none none none (by decide)

/-! Fencing behaviour of the extractor. -/

/-- Payload for the C8 counterexample: valid JSON whose string content holds
three backticks and a closing brace. -/
def c8payload : String := "\x7b\"nodes\":\"```\x7d\",\"edges\":[]\x7d"

/-- Decoded form of the counterexample payload. -/
def c8val : JsonVal := .jobj [("nodes", .jstr "```\x7d"), ("edges", .jarr [])]

/-- Counterexample to C8: a payload that is valid JSON with truthy nodes and
edges fields extracts unfenced, but its fenced form extracts to nothing — the
lazy fence capture stops at the backticks inside the string, and the
balanced-brace scan is derailed by the brace inside the string — so fencing
invariance fails as claimed. -/
theorem extract_fence_not_invariant :
    jsonParse (jsTrim c8payload) = some c8val ∧
      hasNodesEdges c8val = true ∧
      extractJSON c8payload = some c8val ∧
      extractJSON ("```json\n" ++ c8payload ++ "\n```") = none := by
  exact ⟨rfl, rfl, rfl, rfl⟩

theorem hasSub_tail (n c : _) (l : List Char) (h : hasSub n (c :: l) = false) :
    hasSub n l = false := by
  unfold hasSub at h
  rcases Bool.or_eq_false_iff.mp h with ⟨-, h2⟩
  exact h2

theorem hasSub_dropWhile (n : List Char) (p : Char → Bool) (l : List Char)
    (h : hasSub n l = false) : hasSub n (l.dropWhile p) = false := by
  induction l with
  | nil => simpa using h
  | cons c l ih =>
    rw [List.dropWhile_cons]
    by_cases hp : p c = true
    · rw [if_pos hp]
      exact ih (hasSub_tail n c l h)
    · rw [if_neg hp]
      exact h

theorem head_dropWhile_false (p : Char → Bool) (l : List Char) (c : Char)
    (h : (l.dropWhile p).head? = some c) : p c = false := by
  induction l with
  | nil => simp [List.dropWhile] at h
  | cons a l ih =>
    rw [List.dropWhile_cons] at h
    by_cases hp : p a = true
    · rw [if_pos hp] at h
      exact ih h
    · rw [if_neg hp] at h
      simp only [List.head?_cons, Option.some_inj] at h
      rw [← h]
      simpa using hp

theorem isBB3_append_nl (q rest : List Char) (hq : hasSub tripleBq q = false) :
    isBB3 (q ++ '\n' :: rest) = false := by
  match q with
  | [] => rfl
  | [c] =>
    simp only [isBB3, tripleBq, List.cons_append, List.nil_append, List.isPrefixOf]
    simp only [show (btick == '\n') = false from by decide]
    simp
  | [c, d] =>
    simp only [isBB3, tripleBq, List.cons_append, List.nil_append, List.isPrefixOf]
    simp only [show (btick == '\n') = false from by decide]
    simp
  | c :: d :: e :: q' =>
    unfold hasSub at hq
    rcases Bool.or_eq_false_iff.mp hq with ⟨h1, -⟩
    simp only [isBB3, tripleBq, List.cons_append, List.isPrefixOf] at h1 ⊢
    simpa using h1

theorem capTo3_append (q : List Char) (hq : hasSub tripleBq q = false) :
    capTo3 (q ++ '\n' :: tripleBq) = some (q ++ ['\n']) := by
  induction q with
  | nil => rfl
  | cons c q' ih =>
    rw [List.cons_append, capTo3]
    rw [if_neg ?_]
    · rw [ih (hasSub_tail _ c q' hq)]
      rfl
    · rw [← List.cons_append, isBB3_append_nl (c :: q') tripleBq hq]
      simp

theorem matchNl_not_nl (c : Char) (cs : List Char) (h : ¬ c = '\n') :
    matchNl (c :: cs) = capTo3 (c :: cs) := by
  unfold matchNl
  split
  · rename_i heq
    injection heq with h1 h2
    exact absurd h1 h
  · rfl

theorem matchWs_ws_prefix (w : List Char) (hw : ∀ c ∈ w, isJsWs c = true)
    (q : List Char) (qh : Char) (qt : List Char) (hq : q = qh :: qt)
    (hqh : isJsWs qh = false) (hq3 : hasSub tripleBq q = false) :
    matchWs (w ++ (q ++ '\n' :: tripleBq)) = some (q ++ ['\n']) := by
  induction w with
  | nil =>
    subst hq
    rw [List.nil_append, List.cons_append, matchWs]
    rw [if_neg (by simp [hqh])]
    rw [matchNl_not_nl qh (qt ++ '\n' :: tripleBq) ?_]
    · rw [← List.cons_append, capTo3_append _ hq3]
    · intro hcon
      rw [hcon] at hqh
      simp [isJsWs] at hqh
  | cons a w' ih =>
    have ha : isJsWs a = true := hw a (by simp)
    rw [List.cons_append, matchWs]
    rw [if_pos ha]
    rw [ih (fun c hc => hw c (by simp [hc]))]
    rfl

theorem fenceSearch_json_fence (p : List Char) (qh : Char) (qt : List Char)
    (hq : p.dropWhile isJsWs = qh :: qt) (hqh : isJsWs qh = false)
    (h3 : hasSub tripleBq p = false) :
    fenceSearch (btick :: btick :: btick :: 'j' :: 's' :: 'o' :: 'n' :: '\n' ::
        (p ++ '\n' :: tripleBq)) =
      some (p.dropWhile isJsWs ++ ['\n']) := by
  have hw : ∀ c ∈ ('\n' :: p.takeWhile isJsWs), isJsWs c = true := by
    intro c hc
    rcases List.mem_cons.mp hc with rfl | hc2
    · rfl
    · exact List.mem_takeWhile_imp hc2
  have h3b : hasSub tripleBq (qh :: qt) = false := by
    rw [← hq]
    exact hasSub_dropWhile _ _ _ h3
  have hmw := matchWs_ws_prefix ('\n' :: p.takeWhile isJsWs) hw (qh :: qt) qh qt rfl hqh h3b
  have hsplit : ('\n' :: p.takeWhile isJsWs) ++ ((qh :: qt) ++ '\n' :: tripleBq) =
      '\n' :: (p ++ '\n' :: tripleBq) := by
    rw [← hq, List.cons_append, ← List.append_assoc, List.takeWhile_append_dropWhile]
  rw [hsplit] at hmw
  have hred : fenceSearch (btick :: btick :: btick :: 'j' :: 's' :: 'o' :: 'n' :: '\n' ::
      (p ++ '\n' :: tripleBq)) =
      ((matchWs ('\n' :: (p ++ '\n' :: tripleBq))).orElse
        (fun _ => matchWs ('j' :: 's' :: 'o' :: 'n' :: '\n' :: (p ++ '\n' :: tripleBq)))).orElse
        (fun _ => fenceSearch (btick :: btick :: 'j' :: 's' :: 'o' :: 'n' :: '\n' ::
          (p ++ '\n' :: tripleBq))) := rfl
  rw [hred, hmw, hq]
  rfl

theorem fenceSearch_plain_fence (p : List Char) (qh : Char) (qt : List Char)
    (hq : p.dropWhile isJsWs = qh :: qt) (hqh : isJsWs qh = false)
    (h3 : hasSub tripleBq p = false) :
    fenceSearch (btick :: btick :: btick :: '\n' :: (p ++ '\n' :: tripleBq)) =
      some (p.dropWhile isJsWs ++ ['\n']) := by
  have hw : ∀ c ∈ ('\n' :: p.takeWhile isJsWs), isJsWs c = true := by
    intro c hc
    rcases List.mem_cons.mp hc with rfl | hc2
    · rfl
    · exact List.mem_takeWhile_imp hc2
  have h3b : hasSub tripleBq (qh :: qt) = false := by
    rw [← hq]
    exact hasSub_dropWhile _ _ _ h3
  have hmw := matchWs_ws_prefix ('\n' :: p.takeWhile isJsWs) hw (qh :: qt) qh qt rfl hqh h3b
  have hsplit : ('\n' :: p.takeWhile isJsWs) ++ ((qh :: qt) ++ '\n' :: tripleBq) =
      '\n' :: (p ++ '\n' :: tripleBq) := by
    rw [← hq, List.cons_append, ← List.append_assoc, List.takeWhile_append_dropWhile]
  rw [hsplit] at hmw
  have hred : fenceSearch (btick :: btick :: btick :: '\n' :: (p ++ '\n' :: tripleBq)) =
      (matchWs ('\n' :: (p ++ '\n' :: tripleBq))).orElse
        (fun _ => fenceSearch (btick :: btick :: '\n' :: (p ++ '\n' :: tripleBq))) := rfl
  rw [hred, hmw, hq]
  rfl

theorem trimList_cap (p : List Char) (qh : Char) (qt : List Char)
    (hq : p.dropWhile isJsWs = qh :: qt) (hqh : isJsWs qh = false) :
    trimList (p.dropWhile isJsWs ++ ['\n']) = trimList p := by
  unfold trimList
  rw [hq]
  have h1 : ((qh :: qt) ++ ['\n']).dropWhile isJsWs = (qh :: qt) ++ ['\n'] := by
    rw [List.cons_append, List.dropWhile_cons, if_neg (by simp [hqh])]
  rw [h1]
  have h3 : ((qh :: qt) ++ ['\n']).reverse = '\n' :: (qh :: qt).reverse := by
    rw [List.reverse_append]
    rfl
  rw [h3]
  have h4 : ('\n' :: (qh :: qt).reverse).dropWhile isJsWs =
      ((qh :: qt).reverse).dropWhile isJsWs := by
    rw [List.dropWhile_cons, if_pos (by decide)]
  rw [h4]

theorem trimList_eq_self (l : List Char)
    (h1 : ∀ c, l.head? = some c → isJsWs c = false)
    (h2 : ∀ c, l.getLast? = some c → isJsWs c = false) :
    trimList l = l := by
  unfold trimList
  have hd : l.dropWhile isJsWs = l := by
    cases l with
    | nil => rfl
    | cons a l' =>
      rw [List.dropWhile_cons, if_neg (by simp [h1 a rfl])]
  rw [hd]
  have hrev : l.reverse.dropWhile isJsWs = l.reverse := by
    cases hr : l.reverse with
    | nil => rfl
    | cons b r =>
      rw [List.dropWhile_cons, if_neg ?_]
      have hb : l.getLast? = some b := by
        rw [← List.head?_reverse, hr]
        rfl
      simp [h2 b hb]
  rw [hrev, List.reverse_reverse]

theorem parseValue_btick (fuel : Nat) (r : List Char) :
    parseValue fuel (btick :: r) = none := by
  cases fuel with
  | zero => rfl
  | succ f => rfl

theorem getLast?_cons_of_ne (c : Char) (l : List Char) (h : l ≠ []) :
    (c :: l).getLast? = l.getLast? := by
  cases l with
  | nil => exact absurd rfl h
  | cons b r => exact List.getLast?_cons_cons

/-- C8 as amended: for every payload that is valid JSON after trimming,
decodes to a value with truthy nodes and edges fields, and contains no
triple-backtick sequence, extraction of the payload wrapped in a
triple-backtick fence — tagged `json` or untagged — returns the same decoded
object as extraction of the unfenced payload.  (The counterexample forces the
no-triple-backtick hypothesis; payloads containing three consecutive backticks
break the lazy fence capture and the brace scan.) -/
theorem extract_fence_invariant_amended (p : String) (v : JsonVal)
    (hparse : jsonParse (jsTrim p) = some v)
    (hne : hasNodesEdges v = true)
    (hbq : hasSub tripleBq p.data = false) :
    extractJSON ("```json\n" ++ p ++ "\n```") = some v ∧
    extractJSON ("```\n" ++ p ++ "\n```") = some v ∧
    extractJSON p = some v := by
  have hjnone : jsonParse "" = none := rfl
  have hpne : p ≠ "" := by
    intro hcon
    rw [hcon] at hparse
    have htr : jsTrim "" = "" := rfl
    rw [htr, hjnone] at hparse
    exact Option.noConfusion hparse
  have hqex : ∃ qh qt, p.data.dropWhile isJsWs = qh :: qt := by
    cases hq0 : p.data.dropWhile isJsWs with
    | nil =>
      exfalso
      have htl : trimList p.data = [] := by
        unfold trimList
        rw [hq0]
        rfl
      have hemp : jsTrim p = "" := by
        unfold jsTrim
        rw [htl]
      rw [hemp, hjnone] at hparse
      exact Option.noConfusion hparse
    | cons qh qt => exact ⟨qh, qt, rfl⟩
  obtain ⟨qh, qt, hq⟩ := hqex
  have hqh : isJsWs qh = false := head_dropWhile_false isJsWs p.data qh (by rw [hq]; rfl)
  have htailne : p.data ++ '\n' :: tripleBq ≠ [] := by simp
  have hcapTrim : jsTrim (String.mk (p.data.dropWhile isJsWs ++ ['\n'])) = jsTrim p := by
    unfold jsTrim
    have hdm : (String.mk (p.data.dropWhile isJsWs ++ ['\n'])).data =
        p.data.dropWhile isJsWs ++ ['\n'] := rfl
    rw [hdm, trimList_cap p.data qh qt hq hqh]
  refine ⟨?_, ?_, ?_⟩
  · have hFdata : ("```json\n" ++ p ++ "\n```").data =
        btick :: btick :: btick :: 'j' :: 's' :: 'o' :: 'n' :: '\n' ::
          (p.data ++ '\n' :: tripleBq) := rfl
    have hFne : ("```json\n" ++ p ++ "\n```") ≠ "" := by
      intro hcon
      have hd := congrArg String.data hcon
      rw [hFdata] at hd
      exact List.noConfusion hd
    have hlast : ("```json\n" ++ p ++ "\n```").data.getLast? = some btick := by
      rw [hFdata]
      rw [getLast?_cons_of_ne _ _ (by simp), getLast?_cons_of_ne _ _ (by simp),
        getLast?_cons_of_ne _ _ (by simp), getLast?_cons_of_ne _ _ (by simp),
        getLast?_cons_of_ne _ _ (by simp), getLast?_cons_of_ne _ _ (by simp),
        getLast?_cons_of_ne _ _ (by simp), getLast?_cons_of_ne _ _ htailne]
      rw [List.getLast?_append_of_ne_nil p.data (by simp)]
      rfl
    have hheadc : ∀ c, ("```json\n" ++ p ++ "\n```").data.head? = some c → isJsWs c = false := by
      intro c hc
      rw [hFdata, List.head?_cons] at hc
      injection hc with h1
      rw [← h1]
      rfl
    have hlastc : ∀ c, ("```json\n" ++ p ++ "\n```").data.getLast? = some c →
        isJsWs c = false := by
      intro c hc
      rw [hlast] at hc
      injection hc with h1
      rw [← h1]
      rfl
    have htrimF : jsTrim ("```json\n" ++ p ++ "\n```") = ("```json\n" ++ p ++ "\n```") := by
      unfold jsTrim
      rw [trimList_eq_self _ hheadc hlastc]
    have hjF : jsonParse ("```json\n" ++ p ++ "\n```") = none := by
      unfold jsonParse
      rw [hFdata]
      have hskip : skipWs (btick :: btick :: btick :: 'j' :: 's' :: 'o' :: 'n' :: '\n' ::
          (p.data ++ '\n' :: tripleBq)) =
          btick :: btick :: btick :: 'j' :: 's' :: 'o' :: 'n' :: '\n' ::
          (p.data ++ '\n' :: tripleBq) := by
        unfold skipWs
        rw [List.dropWhile_cons, if_neg (by decide)]
      rw [hskip, parseValue_btick]
    have hfence := fenceSearch_json_fence p.data qh qt hq hqh hbq
    simp only [extractJSON, if_neg hFne, htrimF, hjF, hFdata, hfence, hcapTrim, hparse, hne]
    rfl
  · have hFdata : ("```\n" ++ p ++ "\n```").data =
        btick :: btick :: btick :: '\n' :: (p.data ++ '\n' :: tripleBq) := rfl
    have hFne : ("```\n" ++ p ++ "\n```") ≠ "" := by
      intro hcon
      have hd := congrArg String.data hcon
      rw [hFdata] at hd
      exact List.noConfusion hd
    have hlast : ("```\n" ++ p ++ "\n```").data.getLast? = some btick := by
      rw [hFdata]
      rw [getLast?_cons_of_ne _ _ (by simp), getLast?_cons_of_ne _ _ (by simp),
        getLast?_cons_of_ne _ _ (by simp), getLast?_cons_of_ne _ _ htailne]
      rw [List.getLast?_append_of_ne_nil p.data (by simp)]
      rfl
    have hheadc : ∀ c, ("```\n" ++ p ++ "\n```").data.head? = some c → isJsWs c = false := by
      intro c hc
      rw [hFdata, List.head?_cons] at hc
      injection hc with h1
      rw [← h1]
      rfl
    have hlastc : ∀ c, ("```\n" ++ p ++ "\n```").data.getLast? = some c →
        isJsWs c = false := by
      intro c hc
      rw [hlast] at hc
      injection hc with h1
      rw [← h1]
      rfl
    have htrimF : jsTrim ("```\n" ++ p ++ "\n```") = ("```\n" ++ p ++ "\n```") := by
      unfold jsTrim
      rw [trimList_eq_self _ hheadc hlastc]
    have hjF : jsonParse ("```\n" ++ p ++ "\n```") = none := by
      unfold jsonParse
      rw [hFdata]
      have hskip : skipWs (btick :: btick :: btick :: '\n' :: (p.data ++ '\n' :: tripleBq)) =
          btick :: btick :: btick :: '\n' :: (p.data ++ '\n' :: tripleBq) := by
        unfold skipWs
        rw [List.dropWhile_cons, if_neg (by decide)]
      rw [hskip, parseValue_btick]
    have hfence := fenceSearch_plain_fence p.data qh qt hq hqh hbq
    simp only [extractJSON, if_neg hFne, htrimF, hjF, hFdata, hfence, hcapTrim, hparse, hne]
    rfl
  · simp only [extractJSON, if_neg hpne, hparse, hne]
    rfl

/-- Payload for the C8 witness: valid JSON, truthy fields, no backticks. -/
def c8wpayload : String := "\x7b\"nodes\":[true],\"edges\":\"e\"\x7d"

/-- Decoded form of the witness payload. -/
def c8wval : JsonVal := .jobj [("nodes", .jarr [.jbool true]), ("edges", .jstr "e")]

/-- Witness for the amended C8 at a concrete backtick-free payload. -/
theorem extract_fence_invariant_amended_witness :
    extractJSON ("```json\n" ++ c8wpayload ++ "\n```") = some c8wval ∧
      extractJSON ("```\n" ++ c8wpayload ++ "\n```") = some c8wval ∧
      extractJSON c8wpayload = some c8wval :=
  extract_fence_invariant_amended c8wpayload c8wval rfl rfl rfl

end FlowBuilder
